import Mathlib

/-!
Shallow embedding of the geminiblog content-access layer
(`src/unnamed/part_001`, a Supabase-backed data layer) and of the
AI-summary consumer wrapper (`src/services/geminiService.ts`).

The external relational store is modelled as a `DB` value holding the
three tables; each backend request an operation can issue is given an
explicit `Bool` failure flag (`true` models the supabase call returning a
non-null `error`).  Every operation additionally returns the list of
backend requests it actually issued, so that "no query was issued" is a
statable property.  Full-text matching (`textSearch`) is an external
service; it is modelled by an oracle `tsMatch : String → String → Bool`
applied to the stored column value and the formatted query.
-/

namespace GeminiBlog

/-- `Profile` from `types.ts`, restricted to the columns the data layer
selects (`id, name, image`). -/
structure Profile where
  id : String
  name : String
  image : Option String := none
deriving DecidableEq, Repr

/-- A row of the `posts` table (`created_at` as an abstract timestamp). -/
structure PostRow where
  id : String
  title : String
  content : String
  summary : String
  author_id : String
  created_at : Nat
deriving DecidableEq, Repr

/-- A row of the `comments` table. -/
structure CommentRow where
  id : String
  post_id : String
  user_id : String
  text : String
  created_at : Nat
deriving DecidableEq, Repr

/-- `Comment` from `types.ts`: a comment row hydrated with its user profile. -/
structure Comment where
  row : CommentRow
  user : Profile
deriving DecidableEq, Repr

/-- `Post` from `types.ts`: a post row hydrated with its author, and
optionally with its comment thread (`comments?: Comment[]`). -/
structure Post where
  row : PostRow
  author : Profile
  comments : Option (List Comment) := none
deriving DecidableEq, Repr

/-- The state of the external relational store. -/
structure DB where
  posts : List PostRow
  profiles : List Profile
  comments : List CommentRow
deriving DecidableEq, Repr

/-- One backend request, recorded in the trace an operation returns. -/
inductive Query where
  | selectPosts
  | selectPostById (id : String)
  | selectPostsByAuthor (authorId : String)
  | profilesIn (ids : List String)
  | profileById (id : String)
  | selectComments (postId : String)
  | textSearchTitle (q : String)
  | textSearchContent (q : String)
  | insertPost
  | insertComment
deriving DecidableEq, Repr

/-! ### JS `Map` / `Set` model

`new Map(list)` with string keys, as used for `profilesById` / `usersById`
and for the search merge: `set` replaces the value of an existing key in
place, otherwise appends; `get` returns the value of the first (unique)
matching key; `values()` lists values in insertion order of their keys. -/

/-- JS `map.set(k, v)` on an association list. -/
def mapSet : List (String × α) → String → α → List (String × α)
  | [], k, v => [(k, v)]
  | kv :: m, k, v => if kv.1 == k then (k, v) :: m else kv :: mapSet m k v

/-- JS `map.get(k)` (`none` models `undefined`). -/
def mapGet : List (String × α) → String → Option α
  | [], _ => none
  | kv :: m, k => if kv.1 == k then some kv.2 else mapGet m k

/-- JS `new Map(pairs)`: insert the pairs left to right. -/
def mapOfList (l : List (String × α)) : List (String × α) :=
  l.foldl (fun m kv => mapSet m kv.1 kv.2) []

/-- JS `Array.from(map.values())`. -/
def mapValues (m : List (String × α)) : List α := m.map Prod.snd

/-- JS `[...new Set(l)]`: deduplicate keeping first occurrences in order. -/
def setDedupAcc (acc : List String) : List String → List String
  | [] => acc
  | x :: xs => setDedupAcc (if acc.contains x then acc else acc ++ [x]) xs

/-- JS `[...new Set(l)]`. -/
def setDedup (l : List String) : List String := setDedupAcc [] l

/-- `.order('created_at', { ascending: false })` on the posts table. -/
def orderPostsDesc (l : List PostRow) : List PostRow :=
  l.insertionSort (fun a b => b.created_at ≤ a.created_at)

/-- `.order('created_at', { ascending: true })` on the comments table. -/
def orderCommentsAsc (l : List CommentRow) : List CommentRow :=
  l.insertionSort (fun a b => a.created_at ≤ b.created_at)

/-- `.single()`: the data is the row when the filtered result is exactly
one row, otherwise the call reports an error (data `null`). -/
def singleRow : List α → Option α
  | [x] => some x
  | _ => none

/-- The placeholder profile `{ id, name: 'Unknown Author' }`. -/
def unknownAuthor (aid : String) : Profile := { id := aid, name := "Unknown Author" }

/-- The placeholder profile `{ id, name: 'Unknown' }`. -/
def unknown (uid : String) : Profile := { id := uid, name := "Unknown" }

/-! ### The six CAL operations -/

/-- `getPosts` (`part_001` lines 7–43).  `postsFail` / `profilesFail` model
the two queries returning an error. -/
def getPosts (db : DB) (postsFail profilesFail : Bool) : List Post × List Query :=
  if postsFail then ([], [.selectPosts]) else
  let postsData := orderPostsDesc db.posts
  let authorIds := setDedup (postsData.map PostRow.author_id)
  if authorIds.length == 0 then ([], [.selectPosts]) else
  if profilesFail then
    (postsData.map (fun post => { row := post, author := unknownAuthor post.author_id }),
     [.selectPosts, .profilesIn authorIds])
  else
    let profilesData := db.profiles.filter (fun p => authorIds.contains p.id)
    let profilesById := mapOfList (profilesData.map (fun p => (p.id, p)))
    (postsData.map (fun post =>
      { row := post,
        author := (mapGet profilesById post.author_id).getD (unknownAuthor post.author_id) }),
     [.selectPosts, .profilesIn authorIds])

/-- `getPostById` (`part_001` lines 45–104).  Four failure flags, one per
query (post, author, comments, comment users). -/
def getPostById (db : DB) (id : String)
    (postFail authorFail commentsFail usersFail : Bool) : Option Post × List Query :=
  let postRes := if postFail then none else singleRow (db.posts.filter (fun p => p.id == id))
  match postRes with
  | none => (none, [.selectPostById id])
  | some postData =>
    let authorData := if authorFail then none
      else singleRow (db.profiles.filter (fun p => p.id == postData.author_id))
    if commentsFail then
      (some { row := postData, author := authorData.getD (unknown postData.author_id),
              comments := some [] },
       [.selectPostById id, .profileById postData.author_id, .selectComments id])
    else
      let commentsData := orderCommentsAsc (db.comments.filter (fun c => c.post_id == id))
      let userIds := setDedup (commentsData.map CommentRow.user_id)
      let usersById : List (String × Profile) :=
        if userIds.length > 0 && !usersFail then
          mapOfList ((db.profiles.filter (fun p => userIds.contains p.id)).map (fun p => (p.id, p)))
        else []
      let commentsWithUsers := commentsData.map (fun c =>
        { row := c, user := (mapGet usersById c.user_id).getD (unknown c.user_id) })
      (some { row := postData, author := authorData.getD (unknown postData.author_id),
              comments := some commentsWithUsers },
       [.selectPostById id, .profileById postData.author_id, .selectComments id]
         ++ (if userIds.length > 0 then [.profilesIn userIds] else []))

/-- `getPostsByAuthor` (`part_001` lines 106–133). -/
def getPostsByAuthor (db : DB) (authorId : String) (authorFail postsFail : Bool) :
    List Post × List Query :=
  let authorData := if authorFail then none
    else singleRow (db.profiles.filter (fun p => p.id == authorId))
  match authorData with
  | none => ([], [.profileById authorId])
  | some author =>
    if postsFail then ([], [.profileById authorId, .selectPostsByAuthor authorId])
    else
      let postsData := orderPostsDesc (db.posts.filter (fun p => p.author_id == authorId))
      (postsData.map (fun post => { row := post, author := author }),
       [.profileById authorId, .selectPostsByAuthor authorId])

/-- The payload of `createPost`. -/
structure NewPost where
  title : String
  content : String
  summary : String
  author_id : String
deriving DecidableEq, Repr

/-- `createPost` (`part_001` lines 135–159).  The server-assigned `id` and
`created_at` of the inserted row are passed in; the operation also returns
the store state after the call. -/
def createPost (db : DB) (postData : NewPost) (newId : String) (newCreatedAt : Nat)
    (insertFail profileFail : Bool) : Except String Post × DB × List Query :=
  if insertFail then (.error "Could not create post.", db, [.insertPost])
  else
    let data : PostRow :=
      { id := newId, title := postData.title, content := postData.content,
        summary := postData.summary, author_id := postData.author_id,
        created_at := newCreatedAt }
    let db' : DB := { db with posts := db.posts ++ [data] }
    let profile := if profileFail then none
      else singleRow (db.profiles.filter (fun p => p.id == data.author_id))
    match profile with
    | none =>
      (.ok { row := data, author := unknown data.author_id }, db',
       [.insertPost, .profileById data.author_id])
    | some p =>
      (.ok { row := data, author := p }, db', [.insertPost, .profileById data.author_id])

/-- The payload of `addComment`. -/
structure NewComment where
  postId : String
  user_id : String
  text : String
deriving DecidableEq, Repr

/-- `addComment` (`part_001` lines 203–219): returns the raw inserted row,
unhydrated. -/
def addComment (db : DB) (commentData : NewComment) (newId : String) (newCreatedAt : Nat)
    (insertFail : Bool) : Except String CommentRow × DB × List Query :=
  if insertFail then (.error "Could not add comment.", db, [.insertComment])
  else
    let data : CommentRow :=
      { id := newId, post_id := commentData.postId, user_id := commentData.user_id,
        text := commentData.text, created_at := newCreatedAt }
    (.ok data, { db with comments := db.comments ++ [data] }, [.insertComment])

/-- JS `s.split(/\s+/)` for an already-trimmed string `s`: the empty string
splits to `[""]`, otherwise the run-separated nonempty tokens. -/
def jsSplitWs (s : String) : List String :=
  if s == "" then [""]
  else (s.split Char.isWhitespace).filter (fun t => t != "")

/-- `query.trim().split(/\s+/).join(' | ')` from `searchPosts`. -/
def formatQuery (query : String) : String :=
  String.intercalate " | " (jsSplitWs query.trim)

/-- The search merge (`part_001` line 176):
`Array.from(new Map([...titleResults, ...contentResults].map(post => [post.id, post])).values())`. -/
def mergeById (titleResults contentResults : List PostRow) : List PostRow :=
  mapValues (mapOfList ((titleResults ++ contentResults).map (fun p => (p.id, p))))

/-- `searchPosts` (`part_001` lines 161–201).  `tsMatch` is the external
full-text oracle; a failed search contributes `[]` (`.data || []`). -/
def searchPosts (db : DB) (query : String) (tsMatch : String → String → Bool)
    (titleFail contentFail profilesFail : Bool) : List Post × List Query :=
  if query == "" then ([], [])
  else
    let formattedQuery := formatQuery query
    let searchQs := [Query.textSearchTitle formattedQuery, Query.textSearchContent formattedQuery]
    let titleResults := if titleFail then []
      else db.posts.filter (fun p => tsMatch p.title formattedQuery)
    let contentResults := if contentFail then []
      else db.posts.filter (fun p => tsMatch p.content formattedQuery)
    let postsData := mergeById titleResults contentResults
    if postsData.length == 0 then ([], searchQs)
    else
      let authorIds := setDedup (postsData.map PostRow.author_id)
      if profilesFail then
        (postsData.map (fun post => { row := post, author := unknownAuthor post.author_id }),
         searchQs ++ [.profilesIn authorIds])
      else
        let profilesData := db.profiles.filter (fun p => authorIds.contains p.id)
        let profilesById := mapOfList (profilesData.map (fun p => (p.id, p)))
        (postsData.map (fun post =>
          { row := post,
            author := (mapGet profilesById post.author_id).getD (unknownAuthor post.author_id) }),
         searchQs ++ [.profilesIn authorIds])

/-! ### The AI-summary consumer wrapper (`geminiService.ts`) -/

/-- The user-visible fallback returned by the `catch` block. -/
def summaryErrorMessage : String :=
  "There was an error generating the AI summary. Please try again later."

/-- The short-content early return. -/
def tooShortMessage : String :=
  "Content is too short to generate a meaningful summary."

/-- `generateSummary` (`geminiService.ts` lines 33–68).  `aiResult = none`
models `generateContent` throwing, `some s` models it returning text `s`
(possibly empty).  The second component records whether the generative-AI
service was actually called. -/
def generateSummary (content : String) (aiResult : Option String) : String × Bool :=
  if content == "" then (summaryErrorMessage, false)
  else if content.length < 50 then (tooShortMessage, false)
  else
    match aiResult with
    | none => (summaryErrorMessage, true)
    | some summary =>
      if summary == "" then (summaryErrorMessage, true) else (summary, true)

/-! ### Shared correctness predicates -/

/-- The author is either a genuine stored profile or one of the two
placeholder profiles for the post's `author_id` — in particular it is
never absent. -/
def authorOk (db : DB) (p : Post) : Prop :=
  p.author ∈ db.profiles
    ∨ p.author = unknownAuthor p.row.author_id ∨ p.author = unknown p.row.author_id

/-- Every attached comment's user is a stored profile or the `Unknown`
placeholder for its `user_id`. -/
def commentUsersOk (db : DB) (p : Post) : Prop :=
  match p.comments with
  | none => True
  | some l => ∀ c ∈ l, c.user ∈ db.profiles ∨ c.user = unknown c.row.user_id

instance (db : DB) (p : Post) : Decidable (authorOk db p) := by
  unfold authorOk; infer_instance

instance (db : DB) (p : Post) : Decidable (commentUsersOk db p) := by
  unfold commentUsersOk
  cases p.comments <;> infer_instance

/-! ### Association-list lemmas for the JS `Map` model -/

/-- Well-formedness of the map model: keys are pairwise distinct. -/
def WFmap {α : Type} (m : List (String × α)) : Prop := (m.map Prod.fst).Nodup

lemma mapSet_subset {α : Type} (m : List (String × α)) (k : String) (v : α) :
    ∀ p ∈ mapSet m k v, p = (k, v) ∨ p ∈ m := by
  induction m with
  | nil => simp [mapSet]
  | cons kv m ih =>
    intro p hp
    by_cases h : kv.1 = k
    · simp only [mapSet, h, beq_self_eq_true, if_true, List.mem_cons] at hp
      rcases hp with h1 | h1
      · exact Or.inl h1
      · exact Or.inr (List.mem_cons_of_mem _ h1)
    · rw [show mapSet (kv :: m) k v = kv :: mapSet m k v by
        simp only [mapSet]; rw [if_neg (by simp [h])]] at hp
      rcases List.mem_cons.mp hp with h1 | h1
      · exact Or.inr (h1 ▸ List.mem_cons_self _ _)
      · rcases ih p h1 with h2 | h2
        · exact Or.inl h2
        · exact Or.inr (List.mem_cons_of_mem _ h2)

lemma mapGet_mapSet {α : Type} (m : List (String × α)) (k : String) (v : α) (k' : String) :
    mapGet (mapSet m k v) k' = if k = k' then some v else mapGet m k' := by
  induction m with
  | nil => simp [mapSet, mapGet]
  | cons kv m ih =>
    by_cases h : kv.1 = k
    · subst h
      by_cases h2 : kv.1 = k' <;> simp [mapSet, mapGet, h2]
    · have hne : (kv.1 == k) = false := by simp [h]
      by_cases h2 : kv.1 = k'
      · have h3 : ¬ k = k' := fun he => h (h2.trans he.symm)
        have h4 : ¬ k' = k := fun he => h3 he.symm
        simp [mapSet, mapGet, hne, h2, h3, h4]
      · simp [mapSet, mapGet, hne, h2, ih]

lemma keys_mapSet {α : Type} (m : List (String × α)) (k : String) (v : α) :
    (mapSet m k v).map Prod.fst =
      if k ∈ m.map Prod.fst then m.map Prod.fst else m.map Prod.fst ++ [k] := by
  induction m with
  | nil => simp [mapSet]
  | cons kv m ih =>
    by_cases h : kv.1 = k
    · subst h; simp [mapSet]
    · by_cases h2 : k ∈ m.map Prod.fst <;>
        simp [mapSet, beq_eq_false_iff_ne.mpr h, ih, h2, Ne.symm h]

lemma wf_mapSet {α : Type} {m : List (String × α)} (k : String) (v : α)
    (hm : WFmap m) : WFmap (mapSet m k v) := by
  unfold WFmap at *
  rw [keys_mapSet]
  by_cases h : k ∈ m.map Prod.fst
  · simpa [h] using hm
  · simpa [h, List.nodup_append] using hm

lemma mapGet_mem {α : Type} {m : List (String × α)} {k : String} {v : α}
    (h : mapGet m k = some v) : (k, v) ∈ m := by
  induction m with
  | nil => simp [mapGet] at h
  | cons kv m ih =>
    by_cases h1 : kv.1 = k
    · simp only [mapGet, h1, beq_self_eq_true, if_true, Option.some.injEq] at h
      subst h
      exact h1 ▸ List.mem_cons_self _ _
    · simp only [mapGet, beq_eq_false_iff_ne.mpr h1, if_false] at h
      exact List.mem_cons_of_mem _ (ih h)

lemma mem_mapGet {α : Type} {m : List (String × α)} {k : String} {v : α}
    (hm : WFmap m) (h : (k, v) ∈ m) : mapGet m k = some v := by
  induction m with
  | nil => simp at h
  | cons kv m ih =>
    rcases List.mem_cons.mp h with h1 | h1
    · subst h1; simp [mapGet]
    · have hk : kv.1 ≠ k := by
        intro he
        have : k ∈ m.map Prod.fst := List.mem_map.mpr ⟨(k, v), h1, rfl⟩
        rw [← he] at this
        exact (List.nodup_cons.mp hm).1 this
      have hm' : WFmap m := (List.nodup_cons.mp hm).2
      simp [mapGet, beq_eq_false_iff_ne.mpr hk, ih hm' h1]

lemma mapOfList_append {α : Type} (l : List (String × α)) (p : String × α) :
    mapOfList (l ++ [p]) = mapSet (mapOfList l) p.1 p.2 := by
  simp [mapOfList, List.foldl_append]

lemma wf_foldl_mapSet {α : Type} (l : List (String × α)) :
    ∀ m, WFmap m → WFmap (l.foldl (fun m kv => mapSet m kv.1 kv.2) m) := by
  induction l with
  | nil => intro m hm; simpa using hm
  | cons kv l ih =>
    intro m hm
    exact ih _ (wf_mapSet kv.1 kv.2 hm)

lemma wf_mapOfList {α : Type} (l : List (String × α)) : WFmap (mapOfList l) :=
  wf_foldl_mapSet l [] (by simp [WFmap])

lemma foldl_mapSet_subset {α : Type} (l : List (String × α)) :
    ∀ m, ∀ p ∈ l.foldl (fun m kv => mapSet m kv.1 kv.2) m, p ∈ m ∨ p ∈ l := by
  induction l with
  | nil => intro m p hp; exact Or.inl hp
  | cons kv l ih =>
    intro m p hp
    rcases ih _ p hp with h1 | h1
    · rcases mapSet_subset m kv.1 kv.2 p h1 with h2 | h2
      · exact Or.inr (h2 ▸ List.mem_cons_self _ _)
      · exact Or.inl h2
    · exact Or.inr (List.mem_cons_of_mem _ h1)

lemma mapOfList_subset {α : Type} {l : List (String × α)} {p : String × α}
    (hp : p ∈ mapOfList l) : p ∈ l := by
  rcases foldl_mapSet_subset l [] p hp with h | h
  · simp at h
  · exact h

/-- The value the JS `Map` ends up holding for key `k`: the value of the
last inserted pair with that key. -/
def lastValue {α : Type} (l : List (String × α)) (k : String) : Option α :=
  ((l.filter (fun kv => kv.1 == k)).getLast?).map Prod.snd

lemma mapGet_mapOfList {α : Type} (l : List (String × α)) (k : String) :
    mapGet (mapOfList l) k = lastValue l k := by
  induction l using List.reverseRecOn with
  | nil => simp [mapOfList, mapGet, lastValue]
  | append_singleton l p ih =>
    rw [mapOfList_append, mapGet_mapSet]
    by_cases h : p.1 = k
    · simp [lastValue, h, List.filter_append, List.getLast?_concat]
    · simp [lastValue, List.filter_append, beq_eq_false_iff_ne.mpr h, h, ih, lastValue]

lemma length_setDedupAcc (l : List String) :
    ∀ acc : List String, acc.length ≤ (setDedupAcc acc l).length := by
  induction l with
  | nil => intro acc; simp [setDedupAcc]
  | cons x xs ih =>
    intro acc
    have hstep : acc.length ≤ (if acc.contains x then acc else acc ++ [x]).length := by
      by_cases h : x ∈ acc <;> simp [h]
    exact le_trans hstep (ih _)

lemma setDedup_cons_ne_nil (x : String) (xs : List String) :
    setDedup (x :: xs) ≠ [] := by
  have h1 : setDedup (x :: xs) = setDedupAcc [x] xs := by
    simp [setDedup, setDedupAcc]
  have h2 := length_setDedupAcc xs [x]
  intro h
  rw [h1] at h
  rw [h] at h2
  simp at h2

/-! ### Resolution lemmas: every hydrated author/user is a stored profile
or the placeholder -/

lemma singleRow_mem {α : Type} {l : List α} {x : α} (h : singleRow l = some x) : x ∈ l := by
  cases l with
  | nil => simp [singleRow] at h
  | cons a t =>
    cases t with
    | nil =>
      simp [singleRow] at h
      simp [h]
    | cons b t2 => simp [singleRow] at h

lemma mapGet_getD_resolved (db : DB) (m : List (String × Profile))
    (hsub : ∀ kv ∈ m, kv.2 ∈ db.profiles) (aid : String) (ph : Profile) :
    (mapGet m aid).getD ph ∈ db.profiles ∨ (mapGet m aid).getD ph = ph := by
  cases hget : mapGet m aid with
  | none => exact Or.inr rfl
  | some pr => exact Or.inl (by simpa using hsub _ (mapGet_mem hget))

lemma mapOfList_profile_values (db : DB) (cond : Profile → Bool) :
    ∀ kv ∈ mapOfList ((db.profiles.filter cond).map (fun p => (p.id, p))),
      kv.2 ∈ db.profiles := by
  intro kv hkv
  rcases List.mem_map.mp (mapOfList_subset hkv) with ⟨pr, hpr, rfl⟩
  exact List.mem_of_mem_filter hpr

lemma commentUsersOk_none (db : DB) (row : PostRow) (author : Profile) :
    commentUsersOk db { row := row, author := author, comments := none } := by
  simp [commentUsersOk]

lemma getD_single_filter_resolved (db : DB) (b : Bool) (aid : String) (ph : Profile) :
    ((if b then none
       else singleRow (db.profiles.filter (fun p => p.id == aid))).getD ph) ∈ db.profiles
    ∨ ((if b then none
       else singleRow (db.profiles.filter (fun p => p.id == aid))).getD ph) = ph := by
  cases b
  · cases hs : singleRow (db.profiles.filter (fun p => p.id == aid)) with
    | none => simp [hs]
    | some pr =>
      refine Or.inl ?_
      simpa [hs] using List.mem_of_mem_filter (singleRow_mem hs)
  · simp

lemma usersById_values (db : DB) (c : Bool) (cond : Profile → Bool) :
    ∀ kv ∈ (if c then mapOfList ((db.profiles.filter cond).map (fun p => (p.id, p)))
             else ([] : List (String × Profile))),
      kv.2 ∈ db.profiles := by
  cases c
  · simp
  · exact mapOfList_profile_values db cond

/-- C1: for every read operation of the CAL (`getPosts`, `getPostById`,
`getPostsByAuthor`, `searchPosts`) and for `createPost`, every `Post` in the
result carries an author — a stored profile or the placeholder
`{id, name: "Unknown Author"}` / `{id, name: "Unknown"}` for its
`author_id` — and every attached comment carries a user, a stored profile
or the `Unknown` placeholder for its `user_id`; the author/user field is
never omitted. -/
theorem author_never_missing :
    ∀ (db : DB) (id aid : String) (np : NewPost) (nid : String) (nt : Nat)
      (b1 b2 b3 b4 : Bool) (q : String) (tsm : String → String → Bool),
    (∀ p ∈ (getPosts db b1 b2).1, authorOk db p ∧ commentUsersOk db p)
    ∧ (∀ p, (getPostById db id b1 b2 b3 b4).1 = some p → authorOk db p ∧ commentUsersOk db p)
    ∧ (∀ p ∈ (getPostsByAuthor db aid b1 b2).1, authorOk db p ∧ commentUsersOk db p)
    ∧ (∀ p ∈ (searchPosts db q tsm b1 b2 b3).1, authorOk db p ∧ commentUsersOk db p)
    ∧ (∀ p, (createPost db np nid nt b1 b2).1 = .ok p → authorOk db p ∧ commentUsersOk db p) := by
  intro db id aid np nid nt b1 b2 b3 b4 q tsm
  refine ⟨?_, ?_, ?_, ?_, ?_⟩
  · -- getPosts
    intro p hp
    simp only [getPosts] at hp
    split at hp
    · simp at hp
    · split at hp
      · simp at hp
      · split at hp
        · rcases List.mem_map.mp (by simpa using hp) with ⟨row, hrow, rfl⟩
          exact ⟨Or.inr (Or.inl rfl), commentUsersOk_none db row _⟩
        · rcases List.mem_map.mp (by simpa using hp) with ⟨row, hrow, rfl⟩
          refine ⟨?_, commentUsersOk_none db row _⟩
          rcases mapGet_getD_resolved db _ (mapOfList_profile_values db _)
              row.author_id (unknownAuthor row.author_id) with h | h
          · exact Or.inl h
          · exact Or.inr (Or.inl h)
  · -- getPostById
    intro p hp
    simp only [getPostById] at hp
    split at hp
    · simp at hp
    · next postData hpost =>
      split at hp
      · -- comments query failed: comments = []
        simp only [Prod.fst, Option.some.injEq] at hp
        subst hp
        refine ⟨?_, ?_⟩
        · rcases getD_single_filter_resolved db b2 postData.author_id
              (unknown postData.author_id) with h | h
          · exact Or.inl h
          · exact Or.inr (Or.inr h)
        · intro c hc
          simp [commentUsersOk] at hc
      · simp only [Prod.fst, Option.some.injEq] at hp
        subst hp
        refine ⟨?_, ?_⟩
        · rcases getD_single_filter_resolved db b2 postData.author_id
              (unknown postData.author_id) with h | h
          · exact Or.inl h
          · exact Or.inr (Or.inr h)
        · intro c hc
          rcases List.mem_map.mp hc with ⟨crow, hcrow, rfl⟩
          exact mapGet_getD_resolved db _ (usersById_values db _ _) crow.user_id
            (unknown crow.user_id)
  · -- getPostsByAuthor
    intro p hp
    simp only [getPostsByAuthor] at hp
    split at hp
    · simp at hp
    · next author hauthor =>
      split at hp
      · simp at hp
      · rcases List.mem_map.mp (by simpa using hp) with ⟨row, hrow, rfl⟩
        refine ⟨Or.inl ?_, commentUsersOk_none db row _⟩
        cases b1 with
        | true => simp at hauthor
        | false =>
          simp at hauthor
          exact List.mem_of_mem_filter (singleRow_mem hauthor)
  · -- searchPosts
    intro p hp
    simp only [searchPosts] at hp
    split at hp
    · simp at hp
    · generalize (if b1 = true then ([] : List PostRow)
        else List.filter (fun p => tsm p.title (formatQuery q)) db.posts) = tres at hp
      generalize (if b2 = true then ([] : List PostRow)
        else List.filter (fun p => tsm p.content (formatQuery q)) db.posts) = cres at hp
      split at hp
      · simp at hp
      · split at hp
        · rcases List.mem_map.mp (by simpa using hp) with ⟨row, hrow, rfl⟩
          exact ⟨Or.inr (Or.inl rfl), commentUsersOk_none db row _⟩
        · rcases List.mem_map.mp (by simpa using hp) with ⟨row, hrow, rfl⟩
          refine ⟨?_, commentUsersOk_none db row _⟩
          rcases mapGet_getD_resolved db _ (mapOfList_profile_values db _)
              row.author_id (unknownAuthor row.author_id) with h | h
          · exact Or.inl h
          · exact Or.inr (Or.inl h)
  · -- createPost
    intro p hp
    simp only [createPost] at hp
    split at hp
    · simp at hp
    · split at hp
      · next hprof =>
        simp only [Prod.fst, Except.ok.injEq] at hp
        subst hp
        exact ⟨Or.inr (Or.inr rfl), commentUsersOk_none db _ _⟩
      · next pr hprof =>
        simp only [Prod.fst, Except.ok.injEq] at hp
        subst hp
        refine ⟨Or.inl ?_, commentUsersOk_none db _ _⟩
        cases b2 with
        | true => simp at hprof
        | false =>
          simp at hprof
          exact List.mem_of_mem_filter (singleRow_mem hprof)

theorem author_never_missing_witness :
    authorOk ⟨[⟨"p1", "t", "c", "s", "a1", 1⟩], [], []⟩
        ⟨⟨"p1", "t", "c", "s", "a1", 1⟩, unknownAuthor "a1", none⟩
      ∧ commentUsersOk ⟨[⟨"p1", "t", "c", "s", "a1", 1⟩], [], []⟩
        ⟨⟨"p1", "t", "c", "s", "a1", 1⟩, unknownAuthor "a1", none⟩ :=
  (author_never_missing ⟨[⟨"p1", "t", "c", "s", "a1", 1⟩], [], []⟩ "x" "a1"
      ⟨"t", "c", "s", "a1"⟩ "n" 0 false false false false "q" (fun _ _ => false)).1
    _ (by decide)

lemma eq_nil_of_setDedup_eq_nil {l : List String} (h : setDedup l = []) : l = [] := by
  cases l with
  | nil => rfl
  | cons x xs => exact absurd h (setDedup_cons_ne_nil x xs)

/-- C3: `getPosts` returns exactly as many posts as the primary query
produced — zero when the posts query failed, `db.posts.length` otherwise,
for every outcome of the profile batch lookup — and when the profile batch
lookup fails every post carries the `{id: author_id, name: "Unknown
Author"}` placeholder. -/
theorem getPosts_length_and_fallback :
    ∀ (db : DB) (pb pf : Bool),
    ((getPosts db pb pf).1.length = if pb then 0 else db.posts.length)
    ∧ (∀ p ∈ (getPosts db pb true).1, p.author = unknownAuthor p.row.author_id) := by
  intro db pb pf
  have hlen : (orderPostsDesc db.posts).length = db.posts.length := by
    simp [orderPostsDesc, List.length_insertionSort]
  constructor
  · cases pb with
    | true => simp [getPosts]
    | false =>
      simp only [getPosts, Bool.false_eq_true, if_false]
      by_cases h2 : (setDedup ((orderPostsDesc db.posts).map PostRow.author_id)).length = 0
      · have h3 : setDedup ((orderPostsDesc db.posts).map PostRow.author_id) = [] :=
          List.length_eq_zero.mp h2
        have h4 := eq_nil_of_setDedup_eq_nil h3
        have h5 : orderPostsDesc db.posts = [] := by
          simpa using h4
        have h6 : db.posts.length = 0 := by
          rw [h5] at hlen
          simpa using hlen.symm
        simp [h2, h6]
      · cases pf with
        | true => simp [h2, hlen]
        | false => simp [h2, hlen]
  · intro p hp
    simp only [getPosts] at hp
    split at hp
    · simp at hp
    · split at hp
      · simp at hp
      · split at hp
        · rcases List.mem_map.mp (by simpa using hp) with ⟨row, hrow, rfl⟩
          rfl
        · next h => exact absurd trivial h

theorem getPosts_length_and_fallback_witness :
    Post.author ⟨⟨"p1", "t", "c", "s", "a1", 1⟩, unknownAuthor "a1", none⟩
      = unknownAuthor "a1" :=
  (getPosts_length_and_fallback ⟨[⟨"p1", "t", "c", "s", "a1", 1⟩], [], []⟩ false true).2
    _ (by decide)

/-- C5: if the initial profile fetch of `getPostsByAuthor` fails the
whole result is the empty list (no placeholder-author posts, unlike the
bulk listing); when it succeeds, the fetched profile is attached directly
to every returned post. -/
theorem getPostsByAuthor_profile_first :
    ∀ (db : DB) (aid : String) (pb : Bool),
    ((getPostsByAuthor db aid true pb).1 = [])
    ∧ (∀ pr : Profile, db.profiles.filter (fun p => p.id == aid) = [pr] →
        ∀ post ∈ (getPostsByAuthor db aid false false).1, post.author = pr) := by
  intro db aid pb
  constructor
  · simp [getPostsByAuthor]
  · intro pr hpr post hpost
    simp only [getPostsByAuthor, Bool.false_eq_true, if_false, hpr, singleRow] at hpost
    rcases List.mem_map.mp (by simpa using hpost) with ⟨row, hrow, rfl⟩
    rfl

theorem getPostsByAuthor_profile_first_witness :
    Post.author ⟨⟨"p1", "t", "c", "s", "a1", 1⟩, ⟨"a1", "Alice", none⟩, none⟩
      = ⟨"a1", "Alice", none⟩ :=
  (getPostsByAuthor_profile_first ⟨[⟨"p1", "t", "c", "s", "a1", 1⟩],
      [⟨"a1", "Alice", none⟩], []⟩ "a1" false).2
    ⟨"a1", "Alice", none⟩ (by decide) _ (by decide)

/-- C6: `getPostById` evaluates to `none` both when the primary query
errors and when no post row matches the id — the same value in both
cases, and no exception is involved (the operation is a total function
into `Option Post`). -/
theorem getPostById_null_on_error_or_missing :
    ∀ (db : DB) (id : String) (af cf uf : Bool),
    ((getPostById db id true af cf uf).1 = none)
    ∧ (db.posts.filter (fun p => p.id == id) = [] →
        (getPostById db id false af cf uf).1 = none) := by
  intro db id af cf uf
  constructor
  · simp [getPostById]
  · intro h
    simp [getPostById, h, singleRow]

theorem getPostById_null_witness :
    (GeminiBlog.getPostById ⟨[], [], []⟩ "p1" false false false false).1 = none :=
  (getPostById_null_on_error_or_missing ⟨[], [], []⟩ "p1" false false false).2 (by decide)

/-- C7: `createPost` and `addComment` return their generic creation error
exactly when the insert fails; on such a failure the store is unchanged
(no partial state), and when the insert succeeds they always return a
value (a failed profile join never turns a successful creation into an
error). -/
theorem writes_raise_iff_insert_fails :
    ∀ (db : DB) (np : NewPost) (nc : NewComment) (nid : String) (nt : Nat) (pf : Bool),
    ((createPost db np nid nt true pf).1 = .error "Could not create post.")
    ∧ ((createPost db np nid nt true pf).2.1 = db)
    ∧ (∃ post, (createPost db np nid nt false pf).1 = .ok post)
    ∧ ((addComment db nc nid nt true).1 = .error "Could not add comment.")
    ∧ ((addComment db nc nid nt true).2.1 = db)
    ∧ (∃ c, (addComment db nc nid nt false).1 = .ok c) := by
  intro db np nc nid nt pf
  refine ⟨rfl, rfl, ?_, rfl, rfl, ⟨_, rfl⟩⟩
  simp only [createPost, Bool.false_eq_true, if_false]
  cases hpr : (if pf = true then none
      else singleRow (db.profiles.filter (fun p => p.id == np.author_id))) with
  | none => exact ⟨_, rfl⟩
  | some pr => exact ⟨_, rfl⟩

/-- C2 counterexample: `searchPosts` applied to the whitespace-only string
`"   "` does issue backend queries — its request trace is nonempty — so
the claim that a whitespace-only query returns without issuing any query
fails on the code (`!query` is false for `"   "`, so the function is not
short-circuited). -/
theorem searchPosts_blank_counterexample :
    (searchPosts ⟨[], [], []⟩ "   " (fun _ _ => false) false false false).2 ≠ [] := by
  decide

/-- C2 (amended): only the empty string is short-circuited —
`searchPosts db "" …` returns `([], [])` without issuing any query —
while a whitespace-only query such as `"   "` proceeds to the backend:
both the title and the content full-text queries are issued. -/
theorem searchPosts_empty_query :
    ∀ (db : DB) (tsm : String → String → Bool) (tf cf pf : Bool),
    searchPosts db "" tsm tf cf pf = ([], [])
    ∧ Query.textSearchTitle (formatQuery "   ") ∈ (searchPosts db "   " tsm tf cf pf).2
    ∧ Query.textSearchContent (formatQuery "   ") ∈ (searchPosts db "   " tsm tf cf pf).2 := by
  intro db tsm tf cf pf
  refine ⟨rfl, ?_, ?_⟩ <;>
  · simp only [searchPosts]
    rw [if_neg (by decide)]
    repeat' split
    all_goals simp

lemma orderCommentsAsc_sorted (l : List CommentRow) :
    (orderCommentsAsc l).Pairwise (fun a b => a.created_at ≤ b.created_at) := by
  haveI : IsTotal CommentRow (fun a b => a.created_at ≤ b.created_at) :=
    ⟨fun a b => Nat.le_total _ _⟩
  haveI : IsTrans CommentRow (fun a b => a.created_at ≤ b.created_at) :=
    ⟨fun _ _ _ h1 h2 => le_trans h1 h2⟩
  exact List.sorted_insertionSort _ l

/-- C8: the comments attached by `getPostById` are in non-decreasing
`created_at` order, and when the comments query fails on an existing post
id the post is still returned, with `comments = []`. -/
theorem getPostById_comments_sorted :
    ∀ (db : DB) (id : String) (pf af uf : Bool) (post : Post),
    ((getPostById db id pf af false uf).1 = some post →
      ∃ l, post.comments = some l
        ∧ l.Pairwise (fun a b => a.row.created_at ≤ b.row.created_at))
    ∧ (∀ postData, db.posts.filter (fun p => p.id == id) = [postData] →
        ∃ post2, (getPostById db id false af true uf).1 = some post2
          ∧ post2.comments = some []) := by
  intro db id pf af uf post
  constructor
  · intro hp
    simp only [getPostById, Bool.false_eq_true, if_false] at hp
    split at hp
    · simp at hp
    · simp only [Prod.fst, Option.some.injEq] at hp
      subst hp
      refine ⟨_, rfl, ?_⟩
      have hs := orderCommentsAsc_sorted (db.comments.filter (fun c => c.post_id == id))
      exact List.Pairwise.map _ (fun a b h => h) hs
  · intro postData hpd
    simp only [getPostById, Bool.false_eq_true, if_false, hpd, singleRow]
    exact ⟨_, rfl, rfl⟩

theorem getPostById_comments_sorted_witness :
    (∃ l, Post.comments
        ⟨⟨"p1", "t", "c", "s", "a1", 5⟩, unknown "a1",
          some [⟨⟨"c1", "p1", "u1", "hi", 1⟩, unknown "u1"⟩,
                ⟨⟨"c2", "p1", "u2", "yo", 2⟩, unknown "u2"⟩]⟩ = some l
      ∧ l.Pairwise (fun a b => a.row.created_at ≤ b.row.created_at))
    ∧ (∃ post2,
        (getPostById ⟨[⟨"p1", "t", "c", "s", "a1", 5⟩], [],
            [⟨"c2", "p1", "u2", "yo", 2⟩, ⟨"c1", "p1", "u1", "hi", 1⟩]⟩
          "p1" false false true false).1 = some post2
        ∧ post2.comments = some []) :=
  ⟨(getPostById_comments_sorted
      ⟨[⟨"p1", "t", "c", "s", "a1", 5⟩], [],
        [⟨"c2", "p1", "u2", "yo", 2⟩, ⟨"c1", "p1", "u1", "hi", 1⟩]⟩
      "p1" false false false _).1 (by decide),
   (getPostById_comments_sorted
      ⟨[⟨"p1", "t", "c", "s", "a1", 5⟩], [],
        [⟨"c2", "p1", "u2", "yo", 2⟩, ⟨"c1", "p1", "u1", "hi", 1⟩]⟩
      "p1" false false false ⟨⟨"p1", "t", "c", "s", "a1", 5⟩, unknown "a1", none⟩).2
     ⟨"p1", "t", "c", "s", "a1", 5⟩ (by decide)⟩

/-- C9: `generateSummary` never propagates an exception: it is total,
and for content long enough to reach the AI call it returns the
user-visible error string both when the call throws and when the call
returns an empty summary; in every case its result is the error string,
the too-short string, or the AI text itself. -/
theorem generateSummary_never_throws :
    ∀ (content : String) (r : Option String),
    (50 ≤ content.length →
      (generateSummary content none).1 = summaryErrorMessage
      ∧ (generateSummary content (some "")).1 = summaryErrorMessage)
    ∧ ((generateSummary content r).1 = summaryErrorMessage
       ∨ (generateSummary content r).1 = tooShortMessage
       ∨ ∃ s, r = some s ∧ (generateSummary content r).1 = s) := by
  intro content r
  constructor
  · intro h
    have h1 : ¬(content == "") = true := by
      intro hc
      rw [beq_iff_eq] at hc
      subst hc
      exact absurd h (by decide)
    have h2 : ¬ content.length < 50 := by omega
    constructor <;> simp [generateSummary, h1, h2]
  · unfold generateSummary
    split
    · exact Or.inl rfl
    · split
      · exact Or.inr (Or.inl rfl)
      · cases r with
        | none => exact Or.inl rfl
        | some s =>
          by_cases hs : (s == "") = true
          · exact Or.inl (by simp [hs])
          · exact Or.inr (Or.inr ⟨s, rfl, by simp [hs]⟩)

theorem generateSummary_never_throws_witness :
    (generateSummary "aaaaaaaaaaaaaaaaaaaaaaaaaaaaaaaaaaaaaaaaaaaaaaaaaa" none).1
        = summaryErrorMessage
      ∧ (generateSummary "aaaaaaaaaaaaaaaaaaaaaaaaaaaaaaaaaaaaaaaaaaaaaaaaaa" (some "")).1
        = summaryErrorMessage :=
  (generateSummary_never_throws "aaaaaaaaaaaaaaaaaaaaaaaaaaaaaaaaaaaaaaaaaaaaaaaaaa"
      none).1 (by decide)

/-- C10: non-empty content shorter than 50 characters yields the fixed
too-short string without the AI service being called, and empty content
yields the generic error string, also without a call. -/
theorem generateSummary_short_content :
    ∀ (content : String) (r : Option String),
    (content ≠ "" → content.length < 50 →
      generateSummary content r = (tooShortMessage, false))
    ∧ generateSummary "" r = (summaryErrorMessage, false) := by
  intro content r
  constructor
  · intro h1 h2
    simp [generateSummary, h1, h2]
  · rfl

theorem generateSummary_short_content_witness :
    generateSummary "hi" none = (tooShortMessage, false) :=
  (generateSummary_short_content "hi" none).1 (by decide) (by decide)

/-! ### The search merge: JS `Map` de-duplication keyed by post id -/

lemma mapOfList_key_eq_id {l : List PostRow} {kv : String × PostRow}
    (h : kv ∈ mapOfList (l.map (fun p => (p.id, p)))) : kv.2.id = kv.1 := by
  rcases List.mem_map.mp (mapOfList_subset h) with ⟨p, hp, rfl⟩
  rfl

lemma lastValue_map_id (l : List PostRow) (i : String) :
    lastValue (l.map (fun p => (p.id, p))) i = (l.filter (fun p => p.id == i)).getLast? := by
  unfold lastValue
  rw [List.filter_map, List.getLast?_map, Option.map_map]
  have h1 : ((fun kv : String × PostRow => kv.1 == i) ∘ fun p : PostRow => (p.id, p))
      = fun p : PostRow => p.id == i := rfl
  have h2 : (Prod.snd ∘ fun p : PostRow => (p.id, p)) = id := rfl
  rw [h1, h2]
  simp

lemma map_row_hydrate (rows : List PostRow) (f : PostRow → Profile) :
    (rows.map (fun post =>
      ({ row := post, author := f post, comments := none } : Post))).map Post.row = rows := by
  rw [List.map_map]
  have h : (Post.row ∘ fun post : PostRow =>
      ({ row := post, author := f post, comments := none } : Post)) = fun post => post := rfl
  rw [h]
  simp

lemma filter_id_single {c : List PostRow} (hN : (c.map PostRow.id).Nodup)
    {pc : PostRow} (hpc : pc ∈ c) :
    c.filter (fun x => x.id == pc.id) = [pc] := by
  induction c with
  | nil => simp at hpc
  | cons a t ih =>
    have hN' : (t.map PostRow.id).Nodup ∧ a.id ∉ t.map PostRow.id := by
      rw [List.map_cons, List.nodup_cons] at hN
      exact ⟨hN.2, hN.1⟩
    rcases List.mem_cons.mp hpc with h | h
    · subst h
      have ht : t.filter (fun x => x.id == pc.id) = [] := by
        rw [List.filter_eq_nil_iff]
        intro x hx hbeq
        rw [beq_iff_eq] at hbeq
        exact hN'.2 (List.mem_map.mpr ⟨x, hx, hbeq⟩)
      simp [List.filter_cons, ht]
    · have ha : ¬ (a.id == pc.id) = true := by
        intro hbeq
        rw [beq_iff_eq] at hbeq
        exact hN'.2 (hbeq ▸ List.mem_map.mpr ⟨pc, h, rfl⟩)
      simp only [List.filter_cons, ha, if_false]
      exact ih hN'.1 h

lemma mergeById_countP_le_one (t c : List PostRow) (i : String) :
    (mergeById t c).countP (fun p => p.id == i) ≤ 1 := by
  unfold mergeById mapValues
  have hwf : WFmap (mapOfList ((t ++ c).map (fun p => (p.id, p)))) := wf_mapOfList _
  rw [List.countP_map]
  have hcong : (mapOfList ((t ++ c).map (fun p => (p.id, p)))).countP
        ((fun p => p.id == i) ∘ Prod.snd)
      = (mapOfList ((t ++ c).map (fun p => (p.id, p)))).countP
        (fun kv => kv.1 == i) := by
    refine List.countP_congr ?_
    intro kv hkv
    simp [Function.comp, mapOfList_key_eq_id hkv]
  rw [hcong]
  have hk : (mapOfList ((t ++ c).map (fun p => (p.id, p)))).countP (fun kv => kv.1 == i)
      = ((mapOfList ((t ++ c).map (fun p => (p.id, p)))).map Prod.fst).count i := by
    rw [List.count, List.countP_map]
    rfl
  rw [hk]
  exact List.nodup_iff_count_le_one.mp hwf i

/-- C4: the search merge of `searchPosts` is a de-duplicating union keyed
by post id: for a post id matched by both the title query and the content
query, exactly one row with that id appears in the merged list, and when
the two copies differ it is the later-merged content copy that survives
(the title copy is absent); moreover the posts returned by `searchPosts`
are exactly the hydrated merge of the two query results. -/
theorem searchPosts_merge_dedup :
    (∀ (t c : List PostRow), (t.map PostRow.id).Nodup → (c.map PostRow.id).Nodup →
      ∀ pt ∈ t, ∀ pc ∈ c, pt.id = pc.id →
        (mergeById t c).countP (fun p => p.id == pt.id) = 1
        ∧ pc ∈ mergeById t c
        ∧ (pt ≠ pc → pt ∉ mergeById t c))
    ∧ (∀ (db : DB) (q : String) (tsm : String → String → Bool) (pf : Bool), q ≠ "" →
        ((searchPosts db q tsm false false pf).1).map Post.row
          = mergeById (db.posts.filter (fun p => tsm p.title (formatQuery q)))
                      (db.posts.filter (fun p => tsm p.content (formatQuery q)))) := by
  constructor
  · intro t c hNt hNc pt hpt pc hpc hid
    have hfc : c.filter (fun x => x.id == pc.id) = [pc] := filter_id_single hNc hpc
    have hfilter : (t ++ c).filter (fun p => p.id == pc.id)
        = t.filter (fun p => p.id == pc.id) ++ [pc] := by
      rw [List.filter_append, hfc]
    have hget : mapGet (mapOfList ((t ++ c).map (fun p => (p.id, p)))) pc.id = some pc := by
      rw [mapGet_mapOfList, lastValue_map_id, hfilter, List.getLast?_concat]
    have hmem : pc ∈ mergeById t c :=
      List.mem_map.mpr ⟨(pc.id, pc), mapGet_mem hget, rfl⟩
    refine ⟨?_, hmem, ?_⟩
    · refine le_antisymm (mergeById_countP_le_one t c pt.id) ?_
      exact List.countP_pos_iff.mpr ⟨pc, hmem, by simp [hid]⟩
    · intro hne hptmem
      rcases List.mem_map.mp hptmem with ⟨kv, hkv, hsnd⟩
      have hkey : kv.2.id = kv.1 := mapOfList_key_eq_id hkv
      have hkveq : kv = (pt.id, pt) := by
        rcases kv with ⟨k, v⟩
        simp only at hsnd
        subst hsnd
        simp only at hkey
        rw [hkey]
      rw [hkveq] at hkv
      have hget2 : mapGet (mapOfList ((t ++ c).map (fun p => (p.id, p)))) pt.id = some pt :=
        mem_mapGet (wf_mapOfList _) hkv
      rw [hid, hget] at hget2
      exact hne (Option.some.injEq _ _ ▸ hget2.symm : pt = pc)
  · intro db q tsm pf hq
    simp only [searchPosts, Bool.false_eq_true, if_false]
    rw [if_neg (by simpa using hq)]
    split
    · next h =>
      have hnil : mergeById (db.posts.filter (fun p => tsm p.title (formatQuery q)))
          (db.posts.filter (fun p => tsm p.content (formatQuery q))) = [] := by
        simpa using h
      simp [hnil]
    · split <;> exact map_row_hydrate _ _

theorem searchPosts_merge_dedup_witness :
    (mergeById [⟨"p1", "A", "x", "s", "a1", 1⟩] [⟨"p1", "B", "y", "s", "a1", 1⟩]).countP
        (fun p => p.id == "p1") = 1
      ∧ (⟨"p1", "B", "y", "s", "a1", 1⟩ : PostRow)
          ∈ mergeById [⟨"p1", "A", "x", "s", "a1", 1⟩] [⟨"p1", "B", "y", "s", "a1", 1⟩]
      ∧ (⟨"p1", "A", "x", "s", "a1", 1⟩ : PostRow)
          ∉ mergeById [⟨"p1", "A", "x", "s", "a1", 1⟩] [⟨"p1", "B", "y", "s", "a1", 1⟩] := by
  have h := searchPosts_merge_dedup.1 [⟨"p1", "A", "x", "s", "a1", 1⟩]
      [⟨"p1", "B", "y", "s", "a1", 1⟩] (by decide) (by decide)
      ⟨"p1", "A", "x", "s", "a1", 1⟩ (by decide) ⟨"p1", "B", "y", "s", "a1", 1⟩ (by decide) rfl
  exact ⟨h.1, h.2.1, h.2.2 (by decide)⟩

end GeminiBlog
